import Mathlib

/-!
Verification development for the go-logger repository: a shallow embedding of
the caller-resolution algorithm, the runtime-context hook, the rotating file
hook and the logger facade, together with theorems settling the specified
properties against that embedding.
-/

namespace GoLogger

/--
Log severity levels of the underlying logrus library (pinned at v1.9.3 by
go.mod). The numeric encoding below is the one recorded in this repository:
the level table of the level-filtering test (panic 0, fatal 1, error 2,
warn 3, info 4, debug 5, trace 6) and the commented level list of the
runtime-context hook.
-/
inductive Level where
  | panic
  | fatal
  | error
  | warn
  | info
  | debug
  | trace
  deriving DecidableEq, Fintype

/-- Numeric value of a logrus level (logrus.Level is a uint32 constant). -/
def Level.toNat : Level → Nat
  | .panic => 0
  | .fatal => 1
  | .error => 2
  | .warn => 3
  | .info => 4
  | .debug => 5
  | .trace => 6

/-- logrus.AllLevels, in the order the library declares it. -/
def allLevels : List Level :=
  [.panic, .fatal, .error, .warn, .info, .debug, .trace]

/-- The canonical severity ordering of the spec (Trace least severe,
Panic most severe), used to compare the code numeric encoding against the
spec wording: higher rank means more severe. -/
def severityRank : Level → Nat
  | .trace => 0
  | .debug => 1
  | .info => 2
  | .warn => 3
  | .error => 4
  | .fatal => 5
  | .panic => 6

/-- Lower-case display name of a level, as the test helper spells levels. -/
def levelName : Level → String
  | .panic => "panic"
  | .fatal => "fatal"
  | .error => "error"
  | .warn => "warn"
  | .info => "info"
  | .debug => "debug"
  | .trace => "trace"

/-- The level table of the test helper shouldMessageAppear: a lookup in the
map yields the numeric value of the level name, and a name outside the map
yields nothing. -/
def levelNum : String → Option Nat
  | "panic" => some 0
  | "fatal" => some 1
  | "error" => some 2
  | "warn" => some 3
  | "info" => some 4
  | "debug" => some 5
  | "trace" => some 6
  | _ => none

/-- Test helper shouldMessageAppear: a message with level messageLevel is
expected to appear under logger level loggerLevel exactly when its numeric
value is at most the logger numeric value; unknown names yield false. -/
def shouldMessageAppear (loggerLevel messageLevel : String) : Bool :=
  match levelNum loggerLevel, levelNum messageLevel with
  | some ln, some mn => mn ≤ ln
  | _, _ => false

/-! ## Go string and filepath helpers

Models of the Go standard-library functions the repository uses, on
character lists: strings.Contains, strings.Split, strings.LastIndex
followed by slicing, and filepath.Join on two elements. The build targets
unix, so the path separator of path/filepath is the slash, the same
character the function-name splitting uses literally.
-/

/-- Does the first list occur as a prefix of the second? -/
def strStartsWith : List Char → List Char → Bool
  | [], _ => true
  | _ :: _, [] => false
  | a :: as, b :: bs => a = b && strStartsWith as bs

/-- Does needle occur as a contiguous run inside hay?
Models strings.Contains (an empty needle occurs in every string). -/
def strContainsL (hay needle : List Char) : Bool :=
  match hay with
  | [] => needle.isEmpty
  | _ :: t => strStartsWith needle hay || strContainsL t needle

/-- strings.Contains on strings. -/
def goContains (s sub : String) : Bool :=
  strContainsL s.toList sub.toList

/-- Split a character list at every occurrence of sep; always returns at
least one piece. Models strings.Split with a one-character separator. -/
def splitSepL (sep : Char) : List Char → List (List Char)
  | [] => [[]]
  | c :: t =>
    match splitSepL sep t with
    | [] => [[c]]
    | h :: rest => if c = sep then [] :: h :: rest else (c :: h) :: rest

/-- strings.Split with a one-character separator, on strings. -/
def goSplit (s : String) (sep : Char) : List String :=
  (splitSepL sep s.toList).map List.asString

/-- Split a character list around its last dot: the part before the last
dot and the part after it, or nothing when no dot occurs. Models
strings.LastIndex with a dot followed by the two slicings. -/
def breakLastDotL : List Char → Option (List Char × List Char)
  | [] => none
  | c :: t =>
    match breakLastDotL t with
    | some (p, f) => some (c :: p, f)
    | none => if c = '.' then some ([], t) else none

/-- Split a string around its last dot, or nothing when it has no dot. -/
def splitLastDot (s : String) : Option (String × String) :=
  match breakLastDotL s.toList with
  | some (p, f) => some (p.asString, f.asString)
  | none => none

/-- One step of path cleaning over a reversed stack of kept segments:
empty and single-dot segments vanish, a double dot pops a kept normal
segment and otherwise accumulates, and any other segment is kept.
Models the element processing of path.Clean on a relative path. -/
def cleanStep (stk : List String) (s : String) : List String :=
  if s = "" ∨ s = "." then stk
  else if s = ".." then
    match stk with
    | [] => [".."]
    | t :: rest => if t = ".." then s :: t :: rest else rest
  else s :: stk

/-- Join path segments with slashes. -/
def joinSlash : List String → String
  | [] => ""
  | [s] => s
  | s :: t => s ++ "/" ++ joinSlash t

/-- filepath.Clean of a relative path given as its slash-separated
segments (none of which contains a slash): process the segments, rejoin
with slashes, and return a single dot for an empty result. -/
def cleanRel (segs : List String) : String :=
  let kept := (segs.foldl cleanStep []).reverse
  let joined := joinSlash kept
  if joined = "" then "." else joined

/-- filepath.Join on two elements that contain no separator: empty
elements are skipped and the rest is joined with a slash and cleaned,
exactly as the Go implementation does on unix. -/
def goJoin2 (a b : String) : String :=
  if a = "" then
    if b = "" then "" else cleanRel [b]
  else cleanRel [a, b]

/-! ## Caller extraction

Embedding of extractCallerInfo. The call stack is a function from frame
depth to the data runtime.Caller and runtime.FuncForPC yield at that
depth: the fully-qualified function name, the source file and the line
(nothing when the depth is past the stack, where runtime.Caller reports
not ok). The loop runs over the fifteen depths skipFrames up to
skipFrames plus fourteen.
-/

/-- One stack frame as the runtime reports it: qualified function name,
source file path, line number. -/
structure Frame where
  funcName : String
  file : String
  line : Int
  deriving DecidableEq

/-- A call stack: what runtime.Caller yields at each depth. -/
def Stack : Type := Int → Option Frame

/-- The extracted runtime caller information (struct callerInfo). -/
structure CallerInfo where
  funcName : String
  fileName : String
  line : Int
  pkgName : String
  shortFunc : String
  deriving DecidableEq

/-- The zero value of callerInfo, as declared by var info callerInfo. -/
def CallerInfo.zero : CallerInfo :=
  ⟨"", "", 0, "", ""⟩

/-- The exclusion filter of extractCallerInfo: a frame is kept only when
its function name contains none of logrus, runtime., testing.,
WithRuntimeContext and its file contains none of runtime/, testing/,
logger.go. -/
def passesFilter (fr : Frame) : Bool :=
  !goContains fr.funcName "logrus" &&
  !goContains fr.funcName "runtime." &&
  !goContains fr.funcName "testing." &&
  !goContains fr.file "runtime/" &&
  !goContains fr.file "testing/" &&
  !goContains fr.file "logger.go" &&
  !goContains fr.funcName "WithRuntimeContext"

/-- File-name normalization of extractCallerInfo: split the file on the
path separator; with at least two parts, filepath.Join of the last two
parts, else the last part alone. -/
def mkFileName (file : String) : String :=
  let fileParts := goSplit file '/'
  if 2 ≤ fileParts.length then
    goJoin2 (fileParts.getD (fileParts.length - 2) "") (fileParts.getLastD "")
  else fileParts.getLastD ""

/-- The mutation extractCallerInfo performs on info for every frame that
passes the filter: store the function name, the normalized file name and
the line. -/
def updateFileInfo (info : CallerInfo) (fr : Frame) : CallerInfo :=
  { info with funcName := fr.funcName, fileName := mkFileName fr.file, line := fr.line }

/-- The mutation extractCallerInfo performs when the function name has a
last dot: the package display name is the last slash-separated segment of
the part before the dot, and the short function name the part after it. -/
def finishInfo (info : CallerInfo) (pkgPath fullFunc : String) : CallerInfo :=
  { info with pkgName := (goSplit pkgPath '/').getLastD "", shortFunc := fullFunc }

/-- The full callerInfo produced from an accepted frame. On acceptance the
loop overwrites every field of info, so the result depends on the frame
alone. -/
def mkInfo (fr : Frame) : CallerInfo :=
  let base := updateFileInfo CallerInfo.zero fr
  match splitLastDot fr.funcName with
  | some (p, f) => finishInfo base p f
  | none => base

/-- The loop of extractCallerInfo: fuel counts the remaining depths, i is
the current depth, info the partially filled callerInfo threaded through
the iterations. A frame that passes the filter but whose function name
has no dot updates info and the loop continues; a missing frame or a
filtered frame leaves info untouched. -/
def extractLoop (stack : Stack) : Nat → Int → CallerInfo → CallerInfo × Bool
  | 0, _, info => (info, false)
  | fuel + 1, i, info =>
    match stack i with
    | none => extractLoop stack fuel (i + 1) info
    | some fr =>
      if passesFilter fr then
        let info1 := updateFileInfo info fr
        match splitLastDot fr.funcName with
        | some (p, f) => (finishInfo info1 p f, true)
        | none => extractLoop stack fuel (i + 1) info1
      else extractLoop stack fuel (i + 1) info

/-- extractCallerInfo: walk the fifteen depths from skipFrames and return
the callerInfo of the first frame that passes the filter and has a dotted
function name, with true; otherwise whatever partial info accumulated,
with false. -/
def extractCallerInfo (stack : Stack) (skipFrames : Int) : CallerInfo × Bool :=
  extractLoop stack 15 skipFrames CallerInfo.zero

/-- A frame is accepted by the loop when it passes the exclusion filter
and its function name contains a dot. -/
def acceptedFrame (fr : Frame) : Bool :=
  passesFilter fr && (splitLastDot fr.funcName).isSome

/-- Written from the spec wording, for comparison with mkFileName: the
path normalized to the immediate parent directory joined to the file
name by a slash when the path has at least two separator-delimited
segments, else the bare file name. -/
def specFileName (file : String) : String :=
  let parts := goSplit file '/'
  if 2 ≤ parts.length then
    parts.getD (parts.length - 2) "" ++ "/" ++ parts.getLastD ""
  else parts.getLastD ""

/-- A path segment with no special meaning to filepath.Clean: nonempty
and neither the single nor the double dot. -/
def normalSeg (s : String) : Prop :=
  s ≠ "" ∧ s ≠ "." ∧ s ≠ ".."

instance (s : String) : Decidable (normalSeg s) := by
  unfold normalSeg
  infer_instance

/-! ## Runtime-context hook -/

/-- The field mapping of a log entry (entry.Data); the values the
repository stores through this hook and the fields builders are strings. -/
def FieldMap : Type := String → Option String

/-- Fire of runtimeContextHook: when extraction succeeds, set the two
reserved fields func and src of the entry data from the extracted info;
otherwise leave the data alone. The returned error is always nil. -/
def fireRuntimeContextHook (skipFrames : Int) (stack : Stack) (data : FieldMap) :
    FieldMap × Option String :=
  match extractCallerInfo stack skipFrames with
  | (info, true) =>
    let funcText := info.pkgName ++ "." ++ info.shortFunc
    let srcText := info.fileName ++ ":" ++ toString info.line
    (fun k =>
      if k = "src" then some srcText
      else if k = "func" then some funcText
      else data k, none)
  | (_, false) => (data, none)

/-! ## Rotating file hook -/

/-- Default rotation thresholds declared by the hook source. -/
def DefaultMaxSize : Int := 100

/-- Default backup count declared by the hook source. -/
def DefaultMaxBackups : Int := 3

/-- Default maximum age in days declared by the hook source. -/
def DefaultMaxAge : Int := 28

/-- RotatingFileConfig: rotation configuration; the zero value has the
empty file name, zero thresholds, compression off and no levels. -/
structure RotatingFileConfig where
  filename : String
  maxSize : Int
  maxBackups : Int
  maxAge : Int
  compress : Bool
  levels : List Level
  deriving DecidableEq

/-- The zero value of RotatingFileConfig. -/
def RotatingFileConfig.zero : RotatingFileConfig :=
  ⟨"", 0, 0, 0, false, []⟩

/-- The lumberjack.Logger settings the hook stores. -/
structure LumberjackConfig where
  filename : String
  maxSize : Int
  maxBackups : Int
  maxAge : Int
  compress : Bool
  deriving DecidableEq

/-- rotatingFileHook: the lumberjack configuration and the accepted level
list (the formatter is a fixed plain text formatter and the mutex is
runtime state, neither carries data the properties mention). -/
structure RotatingFileHook where
  config : LumberjackConfig
  levels : List Level
  deriving DecidableEq

/-- newRotatingFileHook: a nil configuration becomes the zero value; an
empty file name, zero thresholds and an empty level list fall back to the
documented defaults; the call never fails. -/
def newRotatingFileHook (cfg0 : Option RotatingFileConfig) :
    Except String RotatingFileHook :=
  let cfg1 := cfg0.getD RotatingFileConfig.zero
  let cfg2 := if cfg1.filename = "" then { cfg1 with filename := "logs/app.log" } else cfg1
  let cfg3 := if cfg2.maxSize = 0 then { cfg2 with maxSize := DefaultMaxSize } else cfg2
  let cfg4 := if cfg3.maxBackups = 0 then { cfg3 with maxBackups := DefaultMaxBackups } else cfg3
  let cfg5 := if cfg4.maxAge = 0 then { cfg4 with maxAge := DefaultMaxAge } else cfg4
  let cfg6 := if cfg5.levels.length = 0 then { cfg5 with levels := allLevels } else cfg5
  .ok ⟨⟨cfg6.filename, cfg6.maxSize, cfg6.maxBackups, cfg6.maxAge, cfg6.compress⟩, cfg6.levels⟩

/-- shouldLog of rotatingFileHook: with an empty level list the answer is
true; otherwise minLevel starts at PanicLevel, every configured level
numerically below it replaces it, and the event level is accepted when
its numeric value is at least minLevel. -/
def shouldLog (levels : List Level) (level : Level) : Bool :=
  if levels.length = 0 then true
  else
    let minLevel := levels.foldl (fun m l => if l.toNat < m.toNat then l else m) Level.panic
    decide (minLevel.toNat ≤ level.toNat)

/-! ## Logger core -/

/-- A hook registered on the logger, as far as the properties look at it:
the runtime-context hook with its skip-frame count, or the rotating file
hook. -/
inductive Hook where
  | runtimeContext (skipFrames : Int)
  | rotatingFile (h : RotatingFileHook)
  deriving DecidableEq

/-- ASCII lower-casing of one character, as strings.ToLower acts on the
ASCII level names. -/
def lowerChar : Char → Char
  | 'A' => 'a' | 'B' => 'b' | 'C' => 'c' | 'D' => 'd' | 'E' => 'e'
  | 'F' => 'f' | 'G' => 'g' | 'H' => 'h' | 'I' => 'i' | 'J' => 'j'
  | 'K' => 'k' | 'L' => 'l' | 'M' => 'm' | 'N' => 'n' | 'O' => 'o'
  | 'P' => 'p' | 'Q' => 'q' | 'R' => 'r' | 'S' => 's' | 'T' => 't'
  | 'U' => 'u' | 'V' => 'v' | 'W' => 'w' | 'X' => 'x' | 'Y' => 'y'
  | 'Z' => 'z'
  | c => c

/-- strings.ToLower restricted to ASCII, which covers the level names. -/
def lowerStr (s : String) : String :=
  (s.toList.map lowerChar).asString

/-- logrus.ParseLevel of the pinned dependency: lower-case the name and
map the seven level names, warning counting as warn; any other name is an
error. -/
def parseLevel (lvl : String) : Option Level :=
  match lowerStr lvl with
  | "panic" => some .panic
  | "fatal" => some .fatal
  | "error" => some .error
  | "warn" => some .warn
  | "warning" => some .warn
  | "info" => some .info
  | "debug" => some .debug
  | "trace" => some .trace
  | _ => none

/-- The logger state the properties mention: the threshold level of the
underlying logrus logger, its registered hooks in registration order, a
flag recording that the color formatter was installed, and the field
mapping of the entry. -/
structure LoggerState where
  level : Level
  hooks : List Hook
  colorFormatter : Bool
  data : FieldMap

/-- A fresh logger as createNewLogger builds it before applying options:
logrus defaults to the info level with no hooks. -/
def freshLogger : LoggerState :=
  ⟨.info, [], false, fun _ => none⟩

/-- The WithLevel option body: parse the level name, failing on an
unknown name; set the threshold; and for debug or trace add a
runtime-context hook with skip-frame count three. -/
def withLevel (level : String) (l : LoggerState) : Option LoggerState :=
  match parseLevel level with
  | none => none
  | some pl =>
    let l1 := { l with level := pl }
    if pl = .debug ∨ pl = .trace then
      some { l1 with hooks := l1.hooks ++ [.runtimeContext 3] }
    else some l1

/-- SetLevel of the facade: parse the level name, panicking on an unknown
name (modelled as no result); set the threshold; and for debug or trace
install the color formatter and add a runtime-context hook with
skip-frame count three. -/
def setLevel (level : String) (l : LoggerState) : Option LoggerState :=
  match parseLevel level with
  | none => none
  | some pl =>
    let l1 := { l with level := pl }
    if pl = .debug ∨ pl = .trace then
      some { l1 with colorFormatter := true,
                     hooks := l1.hooks ++ [.runtimeContext 3] }
    else some l1

/-- Consecutive pairs of a field list: the loop of the fields builders
reads arguments two at a time. -/
def pairsOf : List String → List (String × String)
  | k :: v :: t => (k, v) :: pairsOf t
  | _ => []

/-- Write the pairs into a field mapping left to right, a later pair
overwriting an earlier one with the same key, then fall through to the
underlying mapping: the map build of the fields builders followed by the
logrus WithFields merge. -/
def applyPairs (base : FieldMap) (ps : List (String × String)) : FieldMap :=
  ps.foldl (fun d p => fun key => if key = p.1 then some p.2 else d key) base

/-- The value of the last pair carrying a given key, read from the spec
wording that a later pair overrides an earlier one. -/
def lookupLast (ps : List (String × String)) (key : String) : Option String :=
  (ps.reverse.find? (fun p => p.1 = key)).map Prod.snd

/-- The spec reading of a fields merge: each key the pair list mentions
answers with its last pair, every other key falls through to the
underlying mapping. -/
def mergeFields (ps : List (String × String)) (d : FieldMap) : FieldMap :=
  fun key =>
    match lookupLast ps key with
    | some v => some v
    | none => d key

/-- WithFields of the facade: an odd argument count panics (no result);
an even count merges the consecutive pairs into the entry data of the
logger, a later pair overriding an earlier one and the pairs overriding
the existing data. -/
def withFieldsFn (fields : List String) (l : LoggerState) : Option LoggerState :=
  if fields.length % 2 ≠ 0 then none
  else some { l with data := applyPairs l.data (pairsOf fields) }

/-- The WithMultipleFields option: an odd argument count panics while the
option is being built (no option results); an even count yields the
option that merges the consecutive pairs into the entry data. -/
def withMultipleFields (fields : List String) : Option (LoggerState → LoggerState) :=
  if fields.length % 2 ≠ 0 then none
  else some (fun l => { l with data := applyPairs l.data (pairsOf fields) })

/-! ## Singleton construction -/

/-- An option passed to the logger constructors: it transforms the logger
or fails. -/
def LoggerOption : Type := LoggerState → Option LoggerState

/-- createNewLogger: start from a fresh logger and apply the options in
order, the first failing option aborting the construction. -/
def createNewLogger (opts : List LoggerOption) : Option LoggerState :=
  opts.foldlM (fun l o => o l) freshLogger

/-- The package state the singleton constructor works on: the global
logger variable and the done flag of the one-time-initialization
primitive (sync.Once). -/
structure SingletonState where
  log : Option LoggerState
  onceDone : Bool

/-- NewSingletonLogger: when the once already ran, return the stored
global and no error without touching anything; otherwise run the
construction once, storing the new logger on success, and mark the once
done either way. The first component is the returned pair (logger
reference, error present), the second the new package state. -/
def newSingletonLogger (opts : List LoggerOption) (s : SingletonState) :
    (Option LoggerState × Bool) × SingletonState :=
  if s.onceDone then ((s.log, false), s)
  else
    match createNewLogger opts with
    | some l => ((some l, false), ⟨some l, true⟩)
    | none => ((s.log, true), ⟨s.log, true⟩)

/-- ResetLogger: clear the global logger and rearm the once. -/
def resetLogger (_ : SingletonState) : SingletonState :=
  ⟨none, false⟩

/-! ## Hook dispatch -/

/-- A log event as the dispatcher sees it. -/
structure Event where
  level : Level
  message : String

/-- A registered sink: the level set it declares and the outcome its Fire
reports on a given event (some error text or success). -/
structure Sink where
  levels : List Level
  fireErr : Event → Option String

/-- Modelled from the spec: the hook fan-out loop itself is not among the
repository sources (the repository registers its sinks on the logrus
dependency). Per the spec, Fire iterates the registered sinks in
registration order, tests the event level for membership in the level set
of each sink, calls every interested sink synchronously, records the
first error and returns it without aborting dispatch to later sinks.
The result is the returned error and the list of sinks the event was
delivered to, in delivery order. -/
def dispatchFire (sinks : List Sink) (e : Event) : Option String × List Sink :=
  sinks.foldl
    (fun acc s =>
      if e.level ∈ s.levels then
        ((match acc.1 with
          | some err => some err
          | none => s.fireErr e), acc.2 ++ [s])
      else acc)
    (none, [])

/-! ## Theorems -/

/-- The running minimum of the shouldLog loop never moves: it starts at
PanicLevel, whose numeric value zero is already the least possible, so no
configured level can be numerically below it. -/
lemma shouldLog_foldl_min (levels : List Level) :
    levels.foldl (fun m l => if l.toNat < m.toNat then l else m) Level.panic
      = Level.panic := by
  induction levels with
  | nil => rfl
  | cons l t ih =>
    have h : ¬ l.toNat < Level.panic.toNat := by cases l <;> decide
    simpa [h] using ih

/--
C1: the claim states that shouldLog of the rotating file sink accepts an
event exactly when its level is at least as severe as the least-severe
configured level, so that a sink configured with the single level Error
accepts Error, Fatal and Panic and rejects Info and Warn. The code
disagrees: minLevel is seeded with PanicLevel, the numeric minimum of the
logrus scale, the loop can therefore never lower it, and the final
comparison accepts every level. In particular shouldLog answers true for
Info and Warn under a configuration of just Error, where the claim and
the spec demand false; the third conjunct shows the gate is constantly
true for every configuration and level.
-/
theorem C1_shouldLog_constantly_true :
    shouldLog [Level.error] Level.info = true ∧
    shouldLog [Level.error] Level.warn = true ∧
    ∀ (levels : List Level) (level : Level), shouldLog levels level = true := by
  refine ⟨by decide, by decide, fun levels level => ?_⟩
  unfold shouldLog
  split
  · rfl
  · rw [shouldLog_foldl_min]
    cases level <;> decide

/--
C2 counterexample: the claim asserts the numeric values of the level type
satisfy Trace < Debug < Info < Warn < Error < Fatal < Panic, so in
particular Warn below Error. In the code numeric encoding (logrus
v1.9.3, as recorded by the level table of the repository test suite) Warn
is 3 and Error is 2, so the claimed inequality fails there.
-/
theorem C2_counterexample :
    ¬ (Level.toNat Level.warn < Level.toNat Level.error) := by
  decide

/--
C2 amended: the level type is an ordered enum whose numeric values run in
the direction opposite to the claim: Panic < Fatal < Error < Warn < Info
< Debug < Trace, that is, the more severe level (in the spec canonical
severity order, Trace least severe and Panic most severe) has the LOWER
numeric value. Equivalently, for every pair of levels, strictly greater
severity rank is strictly smaller numeric value; and the repository test
helper shouldMessageAppear lets a message through exactly when its
numeric value is at most the logger numeric value.
-/
theorem C2_amended_severity_inverts_numeric :
    ∀ l1 l2 : Level,
      (severityRank l1 < severityRank l2 ↔ Level.toNat l2 < Level.toNat l1) ∧
      shouldMessageAppear (levelName l1) (levelName l2)
        = decide (Level.toNat l2 ≤ Level.toNat l1) := by
  decide

/--
C5: constructing the rotating file sink from a nil configuration or from
the zero-valued configuration succeeds and yields the documented
defaults: file path logs/app.log, max size 100 megabytes, max backups 3,
max age 28 days, compression off, and the level set of all levels (the
third conjunct checks that every level is in that set).
-/
theorem C5_rotating_defaults :
    newRotatingFileHook none
        = .ok ⟨⟨"logs/app.log", 100, 3, 28, false⟩, allLevels⟩ ∧
    newRotatingFileHook (some RotatingFileConfig.zero)
        = .ok ⟨⟨"logs/app.log", 100, 3, 28, false⟩, allLevels⟩ ∧
    ∀ l : Level, l ∈ allLevels := by
  exact ⟨rfl, rfl, by decide⟩

/--
C6: Fire of the runtime-context hook never reports an error; when caller
resolution fails it leaves the field mapping of the entry untouched, and
when it succeeds it sets exactly the two reserved fields func and src
(func from the extracted package and short function names, src from the
normalized file name and line) and leaves every other key unchanged.
-/
theorem C6_runtime_hook_fire (skip : Int) (stack : Stack) (data : FieldMap) :
    (fireRuntimeContextHook skip stack data).2 = none ∧
    ((extractCallerInfo stack skip).2 = false →
      (fireRuntimeContextHook skip stack data).1 = data) ∧
    ((extractCallerInfo stack skip).2 = true →
      (fireRuntimeContextHook skip stack data).1 "func"
          = some ((extractCallerInfo stack skip).1.pkgName ++ "."
              ++ (extractCallerInfo stack skip).1.shortFunc) ∧
      (fireRuntimeContextHook skip stack data).1 "src"
          = some ((extractCallerInfo stack skip).1.fileName ++ ":"
              ++ toString (extractCallerInfo stack skip).1.line) ∧
      ∀ k : String, k ≠ "func" → k ≠ "src" →
        (fireRuntimeContextHook skip stack data).1 k = data k) := by
  rcases h : extractCallerInfo stack skip with ⟨info, b⟩
  cases b with
  | false =>
    refine ⟨?_, fun _ => ?_, fun htrue => ?_⟩
    · simp [fireRuntimeContextHook, h]
    · simp [fireRuntimeContextHook, h]
    · simp at htrue
  | true =>
    refine ⟨?_, fun hfalse => ?_, fun _ => ⟨?_, ?_, fun k hk1 hk2 => ?_⟩⟩
    · simp [fireRuntimeContextHook, h]
    · simp at hfalse
    · simp [fireRuntimeContextHook, h]
    · simp [fireRuntimeContextHook, h]
    · simp [fireRuntimeContextHook, h, hk1, hk2]

/-- Witness for C6: a stack whose frame at depth one is acceptable yields
the two reserved fields and preserves an unrelated field, and the empty
stack leaves the mapping untouched. -/
theorem C6_runtime_hook_fire_witness :
    (fireRuntimeContextHook 1
        (fun i => if i = 1 then some ⟨"pkg/mod.Foo", "/home/u/p/f.go", 42⟩ else none)
        (fun k => if k = "x" then some "1" else none)).1 "func" = some "mod.Foo" ∧
    (fireRuntimeContextHook 1
        (fun i => if i = 1 then some ⟨"pkg/mod.Foo", "/home/u/p/f.go", 42⟩ else none)
        (fun k => if k = "x" then some "1" else none)).1 "src" = some "p/f.go:42" ∧
    (fireRuntimeContextHook 1
        (fun i => if i = 1 then some ⟨"pkg/mod.Foo", "/home/u/p/f.go", 42⟩ else none)
        (fun k => if k = "x" then some "1" else none)).1 "x" = some "1" ∧
    (fireRuntimeContextHook 0 (fun _ => none)
        (fun k => if k = "x" then some "1" else none)).1
      = (fun k => if k = "x" then some "1" else none) := by
  have h := C6_runtime_hook_fire 1
    (fun i => if i = 1 then some ⟨"pkg/mod.Foo", "/home/u/p/f.go", 42⟩ else none)
    (fun k => if k = "x" then some "1" else none)
  have h0 := C6_runtime_hook_fire 0 (fun _ => none)
    (fun k => if k = "x" then some "1" else none)
  refine ⟨((h.2.2 (by decide)).1).trans (by decide),
          ((h.2.2 (by decide)).2.1).trans (by decide),
          ((h.2.2 (by decide)).2.2 "x" (by decide) (by decide)).trans (by decide),
          h0.2.1 (by decide)⟩

/--
C7: applying the WithLevel option or SetLevel with a name that parses to
Debug or Trace sets the threshold and appends exactly one runtime-context
hook with skip-frame count three (SetLevel also installing the color
formatter), while a name that parses to any other level only sets the
threshold and leaves the hook list unchanged.
-/
theorem C7_verbose_levels_register_hook (s : String) (l : LoggerState) (pl : Level)
    (hp : parseLevel s = some pl) :
    ((pl = .debug ∨ pl = .trace) →
      withLevel s l = some { l with level := pl,
                                    hooks := l.hooks ++ [.runtimeContext 3] } ∧
      setLevel s l = some { l with level := pl, colorFormatter := true,
                                   hooks := l.hooks ++ [.runtimeContext 3] }) ∧
    (¬ (pl = .debug ∨ pl = .trace) →
      withLevel s l = some { l with level := pl } ∧
      setLevel s l = some { l with level := pl }) := by
  constructor
  · intro hd
    constructor <;> simp [withLevel, setLevel, hp, hd]
  · intro hd
    constructor <;> simp [withLevel, setLevel, hp, hd]

/-- Witness for C7: debug and trace append the skip-three hook, error and
info leave the hook list empty. -/
theorem C7_verbose_levels_register_hook_witness :
    withLevel "debug" freshLogger
      = some { freshLogger with level := .debug, hooks := [.runtimeContext 3] } ∧
    setLevel "trace" freshLogger
      = some { freshLogger with level := .trace, colorFormatter := true,
                                hooks := [.runtimeContext 3] } ∧
    withLevel "error" freshLogger = some { freshLogger with level := .error } ∧
    setLevel "info" freshLogger = some { freshLogger with level := .info } :=
  ⟨((C7_verbose_levels_register_hook "debug" freshLogger .debug (by decide)).1
      (Or.inl rfl)).1,
   ((C7_verbose_levels_register_hook "trace" freshLogger .trace (by decide)).1
      (Or.inr rfl)).2,
   ((C7_verbose_levels_register_hook "error" freshLogger .error (by decide)).2
      (by decide)).1,
   ((C7_verbose_levels_register_hook "info" freshLogger .info (by decide)).2
      (by decide)).2⟩

/--
C10: the singleton constructor is get-or-create. With the once not yet
done, a successfully constructing call stores the new logger and marks
the once done; with the once done, any call with any options returns the
stored logger, reports no error and changes nothing; and immediately
after a reset a successfully constructing call creates afresh.
-/
theorem C10_singleton_get_or_create (opts opts2 : List LoggerOption)
    (s : SingletonState) (l : LoggerState) :
    (s.onceDone = false → createNewLogger opts = some l →
      newSingletonLogger opts s = ((some l, false), ⟨some l, true⟩)) ∧
    (s.onceDone = true →
      newSingletonLogger opts2 s = ((s.log, false), s)) ∧
    (createNewLogger opts = some l →
      newSingletonLogger opts (resetLogger s) = ((some l, false), ⟨some l, true⟩)) := by
  refine ⟨fun hd hc => ?_, fun hd => ?_, fun hc => ?_⟩ <;>
    simp [newSingletonLogger, resetLogger, *]

/-- Witness for C10: a first call on the reset state creates the fresh
logger, a second call with a different option list returns it unchanged,
and a call after reset creates again. -/
theorem C10_singleton_get_or_create_witness :
    newSingletonLogger [] ⟨none, false⟩
      = ((some freshLogger, false), ⟨some freshLogger, true⟩) ∧
    newSingletonLogger [fun l => withLevel "error" l] ⟨some freshLogger, true⟩
      = ((some freshLogger, false), ⟨some freshLogger, true⟩) ∧
    newSingletonLogger [] (resetLogger ⟨some freshLogger, true⟩)
      = ((some freshLogger, false), ⟨some freshLogger, true⟩) :=
  ⟨(C10_singleton_get_or_create [] [] ⟨none, false⟩ freshLogger).1 rfl rfl,
   (C10_singleton_get_or_create [] [fun l => withLevel "error" l]
      ⟨some freshLogger, true⟩ freshLogger).2.1 rfl,
   (C10_singleton_get_or_create [] [] ⟨some freshLogger, true⟩ freshLogger).2.2 rfl⟩

/-- find? over an appended list looks in the left part first. -/
lemma find?_append_match {α : Type} (l1 l2 : List α) (p : α → Bool) :
    (l1 ++ l2).find? p
      = match l1.find? p with
        | some a => some a
        | none => l2.find? p := by
  induction l1 with
  | nil => rfl
  | cons a t ih =>
    by_cases h : p a
    · simp [List.find?_cons_of_pos _ h]
    · simp only [List.cons_append, List.find?_cons_of_neg _ h, ih]

/-- Unrolling the dispatch fold over an arbitrary accumulator: the
delivered list grows by every interested sink and the error component
keeps an already-recorded error, otherwise the first error among the
interested sinks. -/
lemma dispatchFire_go (e : Event) :
    ∀ (sinks : List Sink) (err0 : Option String) (del0 : List Sink),
      sinks.foldl
        (fun acc s =>
          if e.level ∈ s.levels then
            ((match acc.1 with
              | some err => some err
              | none => s.fireErr e), acc.2 ++ [s])
          else acc)
        (err0, del0)
      = ((match err0 with
          | some err => some err
          | none =>
            (sinks.filter (fun s => decide (e.level ∈ s.levels))).findSome?
              (fun s => s.fireErr e)),
         del0 ++ sinks.filter (fun s => decide (e.level ∈ s.levels)))
  | [], err0, del0 => by cases err0 <;> simp
  | s :: t, err0, del0 => by
    by_cases hm : e.level ∈ s.levels
    · rw [List.foldl_cons]
      simp only [if_pos hm]
      rw [dispatchFire_go e t _ _]
      cases err0 with
      | some err => simp [List.filter_cons, hm]
      | none =>
        cases hf : s.fireErr e with
        | some err => simp [List.filter_cons, hm, List.findSome?_cons, hf]
        | none => simp [List.filter_cons, hm, List.findSome?_cons, hf]
    · rw [List.foldl_cons]
      simp only [if_neg hm]
      rw [dispatchFire_go e t _ _]
      simp [List.filter_cons, hm]

/--
C8: the dispatcher delivers a fired event to every registered sink whose
level set contains the event level, in registration order, regardless of
errors earlier sinks report, and returns the first error an interested
sink reported (none when all succeed). The delivered-sink list being the
full filter of the registration list expresses that one sink failing
never prevents a later sink from receiving the event.
-/
theorem C8_dispatch_first_error_all_delivered (sinks : List Sink) (e : Event) :
    (dispatchFire sinks e).2 = sinks.filter (fun s => decide (e.level ∈ s.levels)) ∧
    (dispatchFire sinks e).1
      = (sinks.filter (fun s => decide (e.level ∈ s.levels))).findSome?
          (fun s => s.fireErr e) := by
  unfold dispatchFire
  rw [dispatchFire_go]
  exact ⟨by simp, rfl⟩

/-- The pair list read from an even-length field list has half as many
entries. -/
lemma pairsOf_mul_two :
    ∀ fields : List String, fields.length % 2 = 0 →
      (pairsOf fields).length * 2 = fields.length
  | [], _ => rfl
  | [_], h => by simp at h
  | _ :: _ :: t, h => by
    have ht : t.length % 2 = 0 := by
      simp only [List.length_cons] at h
      omega
    have := pairsOf_mul_two t ht
    simp only [pairsOf, List.length_cons]
    omega

/-- Writing the pairs left to right over a base mapping reads back as the
last pair carrying the key, the base mapping answering for absent keys. -/
lemma applyPairs_eq_mergeFields :
    ∀ (ps : List (String × String)) (base : FieldMap) (key : String),
      applyPairs base ps key = mergeFields ps base key
  | [], _, _ => rfl
  | p :: t, base, key => by
    have ih := applyPairs_eq_mergeFields t
      (fun k => if k = p.1 then some p.2 else base k) key
    have hsplit : lookupLast (p :: t) key
        = match lookupLast t key with
          | some v => some v
          | none => if p.1 = key then some p.2 else none := by
      unfold lookupLast
      rw [List.reverse_cons, find?_append_match]
      cases ht : t.reverse.find? (fun q => decide (q.1 = key)) with
      | some a => simp
      | none =>
        by_cases hk : p.1 = key
        · simp [List.find?, hk]
        · simp [List.find?, hk]
    rw [show applyPairs base (p :: t) key
          = applyPairs (fun k => if k = p.1 then some p.2 else base k) t key from rfl,
        ih]
    unfold mergeFields
    rw [hsplit]
    cases ht : lookupLast t key with
    | some v => rfl
    | none =>
      by_cases hk : p.1 = key
      · simp [hk]
      · have hk2 : ¬ key = p.1 := fun hh => hk hh.symm
        simp [hk, hk2]

/--
C9: calling WithFields or building the WithMultipleFields option with an
odd number of string arguments panics (no result); with an even number of
arguments, 2n of them, the entry data of the logger gains the n pairs
formed by consecutive arguments, a later pair overriding an earlier pair
with the same key and the pairs overriding existing entries, while every
key the pair list never mentions keeps its previous value.
-/
theorem C9_fields_builders (fields : List String) (l : LoggerState) :
    (fields.length % 2 ≠ 0 →
      withFieldsFn fields l = none ∧ withMultipleFields fields = none) ∧
    (fields.length % 2 = 0 →
      (pairsOf fields).length * 2 = fields.length ∧
      withFieldsFn fields l
        = some { l with data := mergeFields (pairsOf fields) l.data } ∧
      withMultipleFields fields
        = some (fun l2 => { l2 with data := mergeFields (pairsOf fields) l2.data })) := by
  constructor
  · intro h
    exact ⟨by simp [withFieldsFn, h], by simp [withMultipleFields, h]⟩
  · intro h
    have hd : ∀ base : FieldMap,
        applyPairs base (pairsOf fields) = mergeFields (pairsOf fields) base :=
      fun base => funext fun key => applyPairs_eq_mergeFields (pairsOf fields) base key
    refine ⟨pairsOf_mul_two fields h, ?_, ?_⟩
    · simp only [withFieldsFn, h]
      rw [if_neg (by omega), hd]
    · simp only [withMultipleFields, h]
      rw [if_neg (by omega)]
      congr 1
      funext l2
      rw [hd]

/-- Witness for C9: one odd call panics; on the even list a, 1, b, 2, a,
3 the later pair a, 3 wins over a, 1, b reads back 2 and an untouched key
keeps its old value. -/
theorem C9_fields_builders_witness :
    withFieldsFn ["a"] freshLogger = none ∧
    withMultipleFields ["a"] = none ∧
    (withFieldsFn ["a", "1", "b", "2", "a", "3"]
        { freshLogger with data := fun k => if k = "c" then some "0" else none }).map
      (fun l2 => (l2.data "a", l2.data "b", l2.data "c"))
      = some (some "3", some "2", some "0") := by
  obtain ⟨h1, h2⟩ :=
    (C9_fields_builders ["a"] freshLogger).1 (by decide)
  obtain ⟨-, h3, -⟩ :=
    (C9_fields_builders ["a", "1", "b", "2", "a", "3"]
      { freshLogger with data := fun k => if k = "c" then some "0" else none }).2
      (by decide)
  refine ⟨h1, h2, ?_⟩
  rw [h3]
  decide

/-- Loop step: a missing frame moves to the next depth. -/
lemma extractLoop_succ_none (stack : Stack) (fuel : Nat) (i : Int) (info : CallerInfo)
    (h : stack i = none) :
    extractLoop stack (fuel + 1) i info = extractLoop stack fuel (i + 1) info := by
  rw [extractLoop, h]

/-- Loop step: a frame the filter rejects moves to the next depth with
info untouched. -/
lemma extractLoop_succ_filtered (stack : Stack) (fuel : Nat) (i : Int) (info : CallerInfo)
    (fr : Frame) (h : stack i = some fr) (hpf : passesFilter fr = false) :
    extractLoop stack (fuel + 1) i info = extractLoop stack fuel (i + 1) info := by
  rw [extractLoop, h]
  simp [hpf]

/-- Loop step: a frame that passes the filter but has no dotted function
name records its file data into info and moves on. -/
lemma extractLoop_succ_nodot (stack : Stack) (fuel : Nat) (i : Int) (info : CallerInfo)
    (fr : Frame) (h : stack i = some fr) (hpf : passesFilter fr = true)
    (hd : splitLastDot fr.funcName = none) :
    extractLoop stack (fuel + 1) i info
      = extractLoop stack fuel (i + 1) (updateFileInfo info fr) := by
  rw [extractLoop, h]
  simp [hpf, hd]

/-- Loop step: a frame that passes the filter and has a dotted function
name is accepted and ends the loop. -/
lemma extractLoop_succ_accept (stack : Stack) (fuel : Nat) (i : Int) (info : CallerInfo)
    (fr : Frame) (p f : String) (h : stack i = some fr) (hpf : passesFilter fr = true)
    (hd : splitLastDot fr.funcName = some (p, f)) :
    extractLoop stack (fuel + 1) i info = (finishInfo (updateFileInfo info fr) p f, true) := by
  rw [extractLoop, h]
  simp [hpf, hd]

/-- A window of properties over fuel plus one depths splits into the
first depth and a window over the next fuel depths. -/
lemma forall_window_succ (Q : Int → Prop) (i : Int) (fuel : Nat) :
    (∀ k : Nat, k < fuel + 1 → Q (i + k)) ↔
      Q i ∧ ∀ k : Nat, k < fuel → Q (i + 1 + k) := by
  constructor
  · intro H
    refine ⟨by simpa using H 0 (by omega), fun k hk => ?_⟩
    have h2 := H (k + 1) (by omega)
    have harith : i + ((k : Int) + 1) = i + 1 + k := by ring
    rw [Nat.cast_add, Nat.cast_one, harith] at h2
    exact h2
  · rintro ⟨h0, H⟩ k hk
    cases k with
    | zero => simpa using h0
    | succ k2 =>
      have h2 := H k2 (by omega)
      have harith : i + 1 + (k2 : Int) = i + (k2 + 1) := by ring
      rw [harith] at h2
      rw [Nat.cast_add, Nat.cast_one]
      exact h2

/-- The loop only reads the stack at the fuel depths from its start. -/
lemma extractLoop_congr (stack stack2 : Stack) (fuel : Nat) :
    ∀ (i : Int) (info : CallerInfo),
      (∀ k : Nat, k < fuel → stack2 (i + k) = stack (i + k)) →
      extractLoop stack2 fuel i info = extractLoop stack fuel i info := by
  induction fuel with
  | zero => intro i info _; rfl
  | succ fuel ih =>
    intro i info h
    rw [forall_window_succ (fun j => stack2 j = stack j) i fuel] at h
    obtain ⟨h0, hrest⟩ := h
    cases hsi : stack i with
    | none =>
      rw [extractLoop_succ_none stack fuel i info hsi,
          extractLoop_succ_none stack2 fuel i info (h0.trans hsi)]
      exact ih (i + 1) info hrest
    | some fr =>
      cases hpf : passesFilter fr with
      | false =>
        rw [extractLoop_succ_filtered stack fuel i info fr hsi hpf,
            extractLoop_succ_filtered stack2 fuel i info fr (h0.trans hsi) hpf]
        exact ih (i + 1) info hrest
      | true =>
        cases hd : splitLastDot fr.funcName with
        | none =>
          rw [extractLoop_succ_nodot stack fuel i info fr hsi hpf hd,
              extractLoop_succ_nodot stack2 fuel i info fr (h0.trans hsi) hpf hd]
          exact ih (i + 1) (updateFileInfo info fr) hrest
        | some pf =>
          rw [extractLoop_succ_accept stack fuel i info fr pf.1 pf.2 hsi hpf hd,
              extractLoop_succ_accept stack2 fuel i info fr pf.1 pf.2 (h0.trans hsi) hpf hd]

/-- The loop reports failure exactly when no frame in its window passes
the filter with a dotted function name. -/
lemma extractLoop_false_iff (stack : Stack) (fuel : Nat) :
    ∀ (i : Int) (info : CallerInfo),
      (extractLoop stack fuel i info).2 = false ↔
        ∀ k : Nat, k < fuel →
          ∀ fr : Frame, stack (i + k) = some fr → acceptedFrame fr = false := by
  induction fuel with
  | zero =>
    intro i info
    constructor
    · intro _ k hk
      omega
    · intro _
      rfl
  | succ fuel ih =>
    intro i info
    rw [forall_window_succ
      (fun j => ∀ fr : Frame, stack j = some fr → acceptedFrame fr = false) i fuel]
    cases hsi : stack i with
    | none =>
      rw [extractLoop_succ_none stack fuel i info hsi, ih (i + 1) info]
      constructor
      · intro H
        exact ⟨fun fr hfr => by simp at hfr, H⟩
      · exact fun H => H.2
    | some fr =>
      cases hpf : passesFilter fr with
      | false =>
        rw [extractLoop_succ_filtered stack fuel i info fr hsi hpf, ih (i + 1) info]
        constructor
        · intro H
          refine ⟨fun fr2 hfr2 => ?_, H⟩
          have heq : fr = fr2 := by injection hfr2
          subst heq
          simp [acceptedFrame, hpf]
        · exact fun H => H.2
      | true =>
        cases hd : splitLastDot fr.funcName with
        | none =>
          rw [extractLoop_succ_nodot stack fuel i info fr hsi hpf hd,
              ih (i + 1) (updateFileInfo info fr)]
          constructor
          · intro H
            refine ⟨fun fr2 hfr2 => ?_, H⟩
            have heq : fr = fr2 := by injection hfr2
            subst heq
            simp [acceptedFrame, hd]
          · exact fun H => H.2
        | some pf =>
          rw [extractLoop_succ_accept stack fuel i info fr pf.1 pf.2 hsi hpf hd]
          constructor
          · intro H
            simp at H
          · intro H
            have := H.1 fr rfl
            rw [acceptedFrame, hpf, hd] at this
            simp at this

/-- When the first accepted frame of the window sits at depth j, the loop
returns its callerInfo with success, independently of the threaded info. -/
lemma extractLoop_first_accept (stack : Stack) (fuel : Nat) :
    ∀ (i : Int) (info : CallerInfo) (j : Nat) (fr : Frame),
      j < fuel → stack (i + j) = some fr → acceptedFrame fr = true →
      (∀ k : Nat, k < j → ∀ fr2 : Frame, stack (i + k) = some fr2 →
        acceptedFrame fr2 = false) →
      extractLoop stack fuel i info = (mkInfo fr, true) := by
  induction fuel with
  | zero =>
    intro i info j fr hj
    omega
  | succ fuel ih =>
    intro i info j fr hj hstack hacc hmin
    cases j with
    | zero =>
      have hsi : stack i = some fr := by simpa using hstack
      have hpf : passesFilter fr = true := by
        rw [acceptedFrame] at hacc
        exact (Bool.and_eq_true_iff.mp hacc).1
      obtain ⟨⟨p1, p2⟩, hd⟩ : ∃ pr, splitLastDot fr.funcName = some pr := by
        rw [acceptedFrame] at hacc
        have := (Bool.and_eq_true_iff.mp hacc).2
        exact Option.isSome_iff_exists.mp this
      rw [extractLoop_succ_accept stack fuel i info fr p1 p2 hsi hpf hd]
      rw [mkInfo, hd]
      rfl
    | succ j2 =>
      have hstack2 : stack (i + 1 + j2) = some fr := by
        have harith : i + ((j2 : Int) + 1) = i + 1 + j2 := by ring
        rw [Nat.cast_add, Nat.cast_one, harith] at hstack
        exact hstack
      have hmin2 : ∀ k : Nat, k < j2 → ∀ fr2 : Frame,
          stack (i + 1 + k) = some fr2 → acceptedFrame fr2 = false := by
        intro k hk fr2 hfr2
        have harith : i + 1 + (k : Int) = i + (k + 1) := by ring
        rw [harith] at hfr2
        have := hmin (k + 1) (by omega) fr2
        rw [Nat.cast_add, Nat.cast_one] at this
        exact this hfr2
      cases hsi : stack i with
      | none =>
        rw [extractLoop_succ_none stack fuel i info hsi]
        exact ih (i + 1) info j2 fr (by omega) hstack2 hacc hmin2
      | some fr2 =>
        have hrej : acceptedFrame fr2 = false := by
          have := hmin 0 (by omega) fr2
          simp only [Nat.cast_zero, add_zero] at this
          exact this hsi
        cases hpf : passesFilter fr2 with
        | false =>
          rw [extractLoop_succ_filtered stack fuel i info fr2 hsi hpf]
          exact ih (i + 1) info j2 fr (by omega) hstack2 hacc hmin2
        | true =>
          cases hd : splitLastDot fr2.funcName with
          | none =>
            rw [extractLoop_succ_nodot stack fuel i info fr2 hsi hpf hd]
            exact ih (i + 1) (updateFileInfo info fr2) j2 fr (by omega) hstack2 hacc hmin2
          | some pf =>
            rw [acceptedFrame, hpf, hd] at hrej
            simp at hrej

/--
C3 counterexample: the claim states extractCallerInfo returns the first
frame the exclusion filter does not reject and reports found only false
when no frame in the window passes the filter. A frame whose function
name is main with file a/b.go passes every substring check of the
filter, yet the code skips it because its function name has no dot, so
on a stack holding only that frame the call reports found false even
though a frame in the window passed the filter.
-/
theorem C3_counterexample :
    passesFilter ⟨"main", "a/b.go", 7⟩ = true ∧
    (extractCallerInfo
        (fun i => if i = 0 then some ⟨"main", "a/b.go", 7⟩ else none) 0).2 = false := by
  constructor <;> decide

/--
C3 amended: for every skipFrames value, extractCallerInfo examines only
the stack frames at depths skipFrames through skipFrames plus fourteen
(first conjunct: the result only depends on the stack inside that
window); it reports found false exactly when no frame within the window
both passes the exclusion filter and has a dot in its function name
(second conjunct); and it returns the callerInfo of the first frame in
the window that passes the filter AND whose fully-qualified function
name contains a dot (third conjunct) — the dot requirement being the
amendment the counterexample forces.
-/
theorem C3_extract_first_dotted_frame (stack : Stack) (skip : Int) :
    (∀ stack2 : Stack,
      (∀ i : Int, skip ≤ i → i < skip + 15 → stack2 i = stack i) →
      extractCallerInfo stack2 skip = extractCallerInfo stack skip) ∧
    ((extractCallerInfo stack skip).2 = false ↔
      ∀ j : Nat, j < 15 →
        ∀ fr : Frame, stack (skip + j) = some fr → acceptedFrame fr = false) ∧
    (∀ (j : Nat) (fr : Frame), j < 15 →
      stack (skip + j) = some fr → acceptedFrame fr = true →
      (∀ k : Nat, k < j → ∀ fr2 : Frame, stack (skip + k) = some fr2 →
        acceptedFrame fr2 = false) →
      extractCallerInfo stack skip = (mkInfo fr, true)) := by
  refine ⟨fun stack2 h => ?_, ?_, fun j fr hj hs ha hmin => ?_⟩
  · exact extractLoop_congr stack stack2 15 skip CallerInfo.zero
      (fun k hk => h (skip + k) (by omega) (by omega))
  · exact extractLoop_false_iff stack 15 skip CallerInfo.zero
  · exact extractLoop_first_accept stack 15 skip CallerInfo.zero j fr hj hs ha hmin

/-- Witness for C3: on a stack whose only frame sits at depth two, the
walk from depth one accepts that frame and produces its normalized
callerInfo. -/
theorem C3_extract_first_dotted_frame_witness :
    extractCallerInfo
        (fun i => if i = 2 then some ⟨"pkg/mod.Foo", "/home/u/p/f.go", 42⟩ else none) 1
      = (⟨"pkg/mod.Foo", "p/f.go", 42, "mod", "Foo"⟩, true) := by
  have h := (C3_extract_first_dotted_frame
      (fun i => if i = 2 then some ⟨"pkg/mod.Foo", "/home/u/p/f.go", 42⟩ else none) 1).2.2
    1 ⟨"pkg/mod.Foo", "/home/u/p/f.go", 42⟩ (by omega) (by norm_num) (by decide)
    (by
      intro k hk fr2 hf
      have hk0 : k = 0 := by omega
      subst hk0
      norm_num at hf
      exact absurd hf (by simp))
  rw [h]
  decide

/-- On two normal segments the two-element filepath.Join is plain slash
concatenation: nothing is skipped and Clean keeps both segments. -/
lemma goJoin2_normal (a b : String) (ha : normalSeg a) (hb : normalSeg b) :
    goJoin2 a b = a ++ "/" ++ b := by
  obtain ⟨ha1, ha2, ha3⟩ := ha
  obtain ⟨hb1, hb2, hb3⟩ := hb
  have hna : ¬(a = "" ∨ a = ".") := by simp [ha1, ha2]
  have hnb : ¬(b = "" ∨ b = ".") := by simp [hb1, hb2]
  have h1 : cleanStep [] a = [a] := by
    rw [cleanStep, if_neg hna, if_neg ha3]
  have h2 : cleanStep [a] b = [b, a] := by
    rw [cleanStep, if_neg hnb, if_neg hb3]
  have hne : a ++ "/" ++ b ≠ "" := by
    intro h
    have hlen := congrArg String.length h
    rw [String.length_append, String.length_append] at hlen
    have hs : ("/" : String).length = 1 := rfl
    have he : ("" : String).length = 0 := rfl
    omega
  have hj : joinSlash [a, b] = a ++ "/" ++ b := rfl
  unfold goJoin2
  rw [if_neg ha1]
  unfold cleanRel
  simp only [List.foldl_cons, List.foldl_nil, h1, h2, List.reverse_cons,
    List.reverse_nil, List.nil_append, List.cons_append, List.singleton_append]
  rw [hj, if_neg hne]

/-- Under normal last segments the code file-name normalization agrees
with the spec wording: parent directory, slash, file name when the path
has at least two segments, else the bare file name. -/
lemma mkFileName_normal (file : String)
    (hpar : normalSeg ((goSplit file '/').getD ((goSplit file '/').length - 2) ""))
    (hlast : normalSeg ((goSplit file '/').getLastD "")) :
    mkFileName file = specFileName file := by
  simp only [mkFileName, specFileName]
  by_cases h2 : 2 ≤ (goSplit file '/').length
  · rw [if_pos h2, if_pos h2, goJoin2_normal _ _ hpar hlast]
  · rw [if_neg h2, if_neg h2]

/--
C4: for every accepted frame whose path segments are ordinary names, the
resolved callerInfo has the file name normalized to the immediate parent
directory joined by a slash to the file name when the path has at least
two slash-delimited segments and the bare file name otherwise (stated as
agreement with specFileName, the spec wording); the package name is the
last slash-separated segment of the part of the fully-qualified function
name before its last dot; and the short function name is the part after
that dot.
-/
theorem C4_caller_info_normalization (fr : Frame) (p f : String)
    (hdot : splitLastDot fr.funcName = some (p, f))
    (hpar : normalSeg ((goSplit fr.file '/').getD ((goSplit fr.file '/').length - 2) ""))
    (hlast : normalSeg ((goSplit fr.file '/').getLastD "")) :
    (mkInfo fr).fileName = specFileName fr.file ∧
    (mkInfo fr).pkgName = (goSplit p '/').getLastD "" ∧
    (mkInfo fr).shortFunc = f := by
  simp only [mkInfo, hdot]
  exact ⟨mkFileName_normal fr.file hpar hlast, rfl, rfl⟩

/-- Witness for C4: the frame with function pkg/mod.Foo in file
/home/u/p/f.go resolves to file p/f.go, package mod and function Foo. -/
theorem C4_caller_info_normalization_witness :
    (mkInfo ⟨"pkg/mod.Foo", "/home/u/p/f.go", 42⟩).fileName = "p/f.go" ∧
    (mkInfo ⟨"pkg/mod.Foo", "/home/u/p/f.go", 42⟩).pkgName = "mod" ∧
    (mkInfo ⟨"pkg/mod.Foo", "/home/u/p/f.go", 42⟩).shortFunc = "Foo" := by
  obtain ⟨h1, h2, h3⟩ := C4_caller_info_normalization
    ⟨"pkg/mod.Foo", "/home/u/p/f.go", 42⟩ "pkg/mod" "Foo"
    (by decide) (by decide) (by decide)
  exact ⟨h1.trans (by decide), h2.trans (by decide), h3⟩

end GoLogger
